import Mathlib

/-!
Verification of the identity-resolution and deduplication core of the
drishyamitra photo-library backend.

The relational store (SQLAlchemy models `Photo`, `Face`, `Person`) is shallowly
embedded as lists of records together with auto-increment counters for primary
keys.  A query without an `ORDER BY` clause is modelled as returning rows in
store (insertion) order; `db.session.delete` on a single ORM object is modelled
with `List.eraseP` on the primary-key predicate, and SQL `UPDATE ... WHERE` with
a `List.map` guarded by the `WHERE` predicate (primary keys are unique, which the
well-formedness predicate `wf` below captures).

Floating-point cosine similarity (`compute_similarity`) is abstracted as an
arbitrary rational-valued similarity function `simf` passed as a parameter to
`find_matching_person`; every theorem about the matcher is proved for all such
functions, so in particular for cosine similarity.
-/

namespace Drishyamitra

/-- Embedding vectors (`Face.embedding`, a JSON-serialised float list). -/
abbrev EmbVec := List ℚ

/-- `models/photo.py`: the columns of `Photo` relevant to the core
(id, user_id, file_hash, uploaded_at, is_favorite). -/
structure Photo where
  id : Nat
  user_id : Nat
  file_hash : Option String
  uploaded_at : Nat
  is_favorite : Bool
deriving DecidableEq

/-- `models/face.py`: the columns of `Face` (id, photo_id, person_id,
bounding box, confidence, embedding, embedding_model). -/
structure Face where
  id : Nat
  photo_id : Nat
  person_id : Option Nat
  x : ℚ
  y : ℚ
  width : ℚ
  height : ℚ
  confidence : Option ℚ
  embedding : Option EmbVec
  embedding_model : Option String
deriving DecidableEq

/-- `models/person.py`: the columns of `Person` (id, user_id, name). -/
structure Person where
  id : Nat
  user_id : Nat
  name : String
deriving DecidableEq

/-- The relational store: one table per model plus auto-increment counters. -/
structure Store where
  photos : List Photo
  faces : List Face
  persons : List Person
  nextPhotoId : Nat
  nextFaceId : Nat
  nextPersonId : Nat
deriving DecidableEq

/-- Primary keys are unique and below the auto-increment counters. -/
def wf (s : Store) : Prop :=
  (s.photos.map Photo.id).Nodup ∧
  (s.faces.map Face.id).Nodup ∧
  (s.persons.map Person.id).Nodup ∧
  (∀ p ∈ s.photos, p.id < s.nextPhotoId) ∧
  (∀ f ∈ s.faces, f.id < s.nextFaceId) ∧
  (∀ p ∈ s.persons, p.id < s.nextPersonId)

instance (s : Store) : Decidable (wf s) := by
  unfold wf
  infer_instance

/-- `Person.faces.count()`: number of Face rows whose `person_id` references
the given person. -/
def faceCount (s : Store) (pid : Nat) : Nat :=
  (s.faces.filter (fun f => decide (f.person_id = some pid))).length

/-- `Photo.query.filter_by(id=...).first()` followed by `.user_id`:
the owning user of a photo, if the photo exists. -/
def photoUser (s : Store) (phid : Nat) : Option Nat :=
  (s.photos.find? (fun p => decide (p.id = phid))).map Photo.user_id

-- ──────────────────────────────────────────────────
-- services/person_service.py
-- ──────────────────────────────────────────────────

/-- `person_service.get_persons`: all persons of the user ordered by name,
then filtered in Python to those with `faces.count() > 0`. -/
def get_persons (s : Store) (uid : Nat) : List Person :=
  let ps := (s.persons.filter (fun p => decide (p.user_id = uid))).mergeSort
    (fun a b => decide (a.name ≤ b.name))
  ps.filter (fun p => decide (0 < faceCount s p.id))

/-- `person_service.create_person`: find an existing `(user_id, name)` person
or insert a fresh one; returns the (possibly pre-existing) person. -/
def create_person (s : Store) (uid : Nat) (name : String) : Store × Person :=
  match s.persons.find? (fun p => decide (p.user_id = uid ∧ p.name = name)) with
  | some p => (s, p)
  | none =>
    let p : Person := ⟨s.nextPersonId, uid, name⟩
    ({ s with persons := s.persons ++ [p], nextPersonId := s.nextPersonId + 1 }, p)

/-- `person_service.delete_person`: look up the person by `(id, user_id)`;
if present, null out `person_id` on every Face referencing it
(`Face.query.filter_by(person_id=...).update({"person_id": None})`, not
user-scoped) and delete the person row. -/
def delete_person (s : Store) (personId uid : Nat) : Store × Bool :=
  match s.persons.find? (fun p => decide (p.id = personId ∧ p.user_id = uid)) with
  | none => (s, false)
  | some _ =>
    ({ s with
        faces := s.faces.map (fun f =>
          if f.person_id = some personId then { f with person_id := none } else f),
        persons := s.persons.eraseP
          (fun p => decide (p.id = personId ∧ p.user_id = uid)) },
      true)

-- ──────────────────────────────────────────────────
-- services/face_service.py
-- ──────────────────────────────────────────────────

/-- `face_service.assign_face_to_person`: `Face.query.get(face_id)` (NOT
user-scoped); `None` when the face id is absent.  Otherwise find-or-create the
`(name, user_id)` person and set the face's `person_id` to it; returns the
updated face. -/
def assign_face_to_person (s : Store) (faceId : Nat) (personName : String)
    (uid : Nat) : Store × Option Face :=
  match s.faces.find? (fun f => decide (f.id = faceId)) with
  | none => (s, none)
  | some face =>
    let fc : Store × Person :=
      match s.persons.find? (fun p => decide (p.name = personName ∧ p.user_id = uid)) with
      | some p => (s, p)
      | none =>
        let p : Person := ⟨s.nextPersonId, uid, personName⟩
        ({ s with persons := s.persons ++ [p], nextPersonId := s.nextPersonId + 1 }, p)
    ({ fc.1 with
        faces := fc.1.faces.map (fun f =>
          if f.id = faceId then { f with person_id := some fc.2.id } else f) },
      some { face with person_id := some fc.2.id })

/-- `face_service.get_all_embeddings_for_user`: faces joined with their photo,
filtered to a non-null embedding and the photo's `user_id`; rows in store
order.  (The Python `get_embedding()` re-check never filters anything out here,
since `embedding` is modelled directly as an optional vector.) -/
def userEmbeddingFaces (s : Store) (uid : Nat) : List Face :=
  s.faces.filter (fun f =>
    f.embedding.isSome && decide (photoUser s f.photo_id = some uid))

/-- The scan loop of `face_service.find_matching_person`: skip candidates with
a null `person_id`; a candidate becomes the running best exactly when
`sim >= threshold and sim > best_similarity`.  Returns the final
`(best_similarity, best_person)` pair. -/
def fmLoop (simf : EmbVec → EmbVec → ℚ) (query : EmbVec) (t : ℚ) :
    List Face → ℚ → Option Nat → ℚ × Option Nat
  | [], best, bp => (best, bp)
  | f :: rest, best, bp =>
    match f.person_id, f.embedding with
    | none, _ => fmLoop simf query t rest best bp
    | some _, none => fmLoop simf query t rest best bp
    | some pid, some e =>
      if t ≤ simf query e ∧ best < simf query e then
        fmLoop simf query t rest (simf query e) (some pid)
      else fmLoop simf query t rest best bp

/-- The candidates the scan actually scores: faces of the list that carry
both a person link and an embedding (the scan skips `person_id is None`). -/
def pcandsOf (l : List Face) : List Face :=
  l.filter (fun f => f.person_id.isSome && f.embedding.isSome)

/-- The similarity value the scan computes for a candidate face. -/
def simQ (simf : EmbVec → EmbVec → ℚ) (q : EmbVec) (f : Face) : ℚ :=
  simf q (f.embedding.getD [])

/-- `face_service.find_matching_person`: scan all of the user's stored
embeddings, starting from `best_similarity = -1.0`, `best_person = None`.
`simf` abstracts the floating-point `compute_similarity`. -/
def find_matching_person (simf : EmbVec → EmbVec → ℚ) (s : Store)
    (query : EmbVec) (uid : Nat) (t : ℚ) : Option Nat :=
  (fmLoop simf query t (userEmbeddingFaces s uid) (-1) none).2

-- ──────────────────────────────────────────────────
-- services/photo_service.py
-- ──────────────────────────────────────────────────

/-- `photo_service.delete_photo`: look up the photo by `(id, user_id)`; collect
the person ids referenced by its faces; delete the photo row (cascade deletes
its faces); then delete every collected person whose remaining
`faces.count()` is zero. -/
def delete_photo (s : Store) (photoId uid : Nat) : Store × Bool :=
  match s.photos.find? (fun p => decide (p.id = photoId ∧ p.user_id = uid)) with
  | none => (s, false)
  | some _ =>
    let pids := (s.faces.filter (fun f => decide (f.photo_id = photoId))).filterMap
      Face.person_id
    let s1 : Store :=
      { s with
          photos := s.photos.eraseP (fun p => decide (p.id = photoId ∧ p.user_id = uid)),
          faces := s.faces.filter (fun f => decide (f.photo_id ≠ photoId)) }
    ({ s1 with
        persons := s1.persons.filter (fun p =>
          decide (¬(p.id ∈ pids ∧ faceCount s1 p.id = 0))) },
      true)

/-- `photo_service.delete_photos_batch`: select the user's photos among the
requested ids; collect all person ids referenced by their faces; delete the
photos (cascading to their faces); then run one orphan-cleanup pass over the
collected person ids.  Returns the number of photos deleted. -/
def delete_photos_batch (s : Store) (photoIds : List Nat) (uid : Nat) :
    Store × Nat :=
  let selected := s.photos.filter (fun p =>
    decide (p.id ∈ photoIds ∧ p.user_id = uid))
  if selected = [] then (s, 0)
  else
    let delIds := selected.map Photo.id
    let pids := (s.faces.filter (fun f => decide (f.photo_id ∈ delIds))).filterMap
      Face.person_id
    let s1 : Store :=
      { s with
          photos := s.photos.filter (fun p =>
            decide (¬(p.id ∈ photoIds ∧ p.user_id = uid))),
          faces := s.faces.filter (fun f => decide (f.photo_id ∉ delIds)) }
    ({ s1 with
        persons := s1.persons.filter (fun p =>
          decide (¬(p.id ∈ pids ∧ faceCount s1 p.id = 0))) },
      selected.length)

/-- The photos of one user carrying a given non-null content hash, in store
order (`Photo.query.filter_by(user_id=..., file_hash=fhash).all()`). -/
def hashGroup (s : Store) (uid : Nat) (h : String) : List Photo :=
  s.photos.filter (fun p => decide (p.user_id = uid ∧ p.file_hash = some h))

/-- `photo_service.get_all_duplicates`: the non-null content hashes of the
user's photos that occur more than once (`GROUP BY ... HAVING count > 1`,
modelled in first-occurrence order), each mapped to its group of photos in
store order. -/
def get_all_duplicates (s : Store) (uid : Nat) : List (String × List Photo) :=
  let userHashes := (s.photos.filter (fun p => decide (p.user_id = uid))).filterMap
    Photo.file_hash
  let dupHashes := userHashes.dedup.filter (fun h => decide (2 ≤ userHashes.count h))
  dupHashes.map (fun h => (h, hashGroup s uid h))

-- ──────────────────────────────────────────────────
-- services/chat_actions.py
-- ──────────────────────────────────────────────────

/-- One group's contribution in `chat_actions._action_delete_duplicates`:
`sorted(group, key=uploaded_at)[1:]`, i.e. the ids of all but the first
(oldest) member under a stable ascending sort by upload time. -/
def stagedOfGroup (g : List Photo) : List Nat :=
  ((g.mergeSort (fun a b => decide (a.uploaded_at ≤ b.uploaded_at))).drop 1).map
    Photo.id

/-- `chat_actions._action_delete_duplicates`: the staged `photo_ids` of the
returned `delete_confirmation` payload.  The action only stages ids (with
`requires_confirmation = True`); it performs no deletion itself, which the
embedding reflects by not producing a new store. -/
def action_delete_duplicates (s : Store) (uid : Nat) : List Nat :=
  (get_all_duplicates s uid).flatMap (fun hg => stagedOfGroup hg.2)

-- ──────────────────────────────────────────────────
-- routes/photos.py  upload_photo  (with face_service.save_detected_faces and
-- face_service.process_embeddings_for_photo)
-- ──────────────────────────────────────────────────

/-- One detector result: relative bounding box plus confidence
(`detect_faces_in_image` output). -/
structure DetFace where
  x : ℚ
  y : ℚ
  width : ℚ
  height : ℚ
  confidence : Option ℚ
deriving DecidableEq

/-- `face_service.save_detected_faces`: append one Face row per detection, in
order, with null `person_id` and null embedding fields. -/
def save_detected_faces (s : Store) (photoId : Nat) (detected : List DetFace) :
    Store :=
  { s with
      faces := s.faces ++ detected.enum.map (fun ifd =>
        { id := s.nextFaceId + ifd.1, photo_id := photoId, person_id := none,
          x := ifd.2.x, y := ifd.2.y, width := ifd.2.width, height := ifd.2.height,
          confidence := ifd.2.confidence, embedding := none,
          embedding_model := none }),
      nextFaceId := s.nextFaceId + detected.length }

/-- `face_service.store_embedding` (via `Face.set_embedding`): overwrite the
embedding and model tag of the face with the given id and commit. -/
def store_embedding (s : Store) (faceId : Nat) (e : EmbVec) (model : String) :
    Store :=
  { s with
      faces := s.faces.map (fun f =>
        if f.id = faceId then
          { f with embedding := some e, embedding_model := some model } else f) }

/-- `face.person_id = matched_person.id; db.session.commit()` inside the
auto-match branch of `process_embeddings_for_photo`. -/
def set_person_id (s : Store) (faceId : Nat) (pid : Nat) : Store :=
  { s with
      faces := s.faces.map (fun f =>
        if f.id = faceId then { f with person_id := some pid } else f) }

/-- The default `threshold=0.6` of `find_matching_person`, written as the
reduced rational 3/5 (the theorem `matchThreshold_eq` below certifies the
value). -/
def matchThreshold : ℚ := ⟨3, 5, by decide, by decide⟩

/-- One iteration of the loop in `face_service.process_embeddings_for_photo`:
extract an embedding from the face's bounding box (the external extractor is
the oracle `extract`; `none` means extraction failed and the face is skipped),
store it, and if the face has no person link yet query
`find_matching_person` against the current store and link on a match. -/
def processOneFace (simf : EmbVec → EmbVec → ℚ)
    (extract : ℚ × ℚ × ℚ × ℚ → Option EmbVec) (uid : Nat) (s : Store)
    (faceId : Nat) : Store :=
  match s.faces.find? (fun f => decide (f.id = faceId)) with
  | none => s
  | some f =>
    match extract (f.x, f.y, f.width, f.height) with
    | none => s
    | some e =>
      if f.person_id = none then
        match find_matching_person simf (store_embedding s faceId e "facenet")
            e uid matchThreshold with
        | some pid => set_person_id (store_embedding s faceId e "facenet") faceId pid
        | none => store_embedding s faceId e "facenet"
      else store_embedding s faceId e "facenet"

/-- `face_service.process_embeddings_for_photo`: fetch the photo's faces once
(`Face.query.filter_by(photo_id=...).all()`), then process them in order.
(The `auto_matched` counter, used only for the response JSON, is omitted.) -/
def process_embeddings_for_photo (simf : EmbVec → EmbVec → ℚ)
    (extract : ℚ × ℚ × ℚ × ℚ → Option EmbVec) (s : Store) (photoId uid : Nat) :
    Store :=
  let faceIds := (s.faces.filter (fun f => decide (f.photo_id = photoId))).map
    Face.id
  faceIds.foldl (processOneFace simf extract uid) s

/-- Python `str.strip()`: remove leading and trailing whitespace. -/
def strip (s : String) : String :=
  ⟨((s.data.dropWhile Char.isWhitespace).reverse.dropWhile
      Char.isWhitespace).reverse⟩

/-- One step of the manual-name loop in `routes/photos.py upload_photo`: a
saved face id paired with its submitted name; an empty stripped name is
skipped, otherwise `assign_face_to_person(face.id, name.strip(), user_id)` is
applied. -/
def manualStep (uid : Nat) (st : Store) (fn : Nat × String) : Store :=
  if strip fn.2 = "" then st
  else (assign_face_to_person st fn.1 (strip fn.2) uid).1

/-- The manual-name pass of `routes/photos.py upload_photo`: for each saved
face position `i` with `i < len(face_names)` and a non-empty stripped name,
call `assign_face_to_person(face.id, name, user_id)`.  Zipping the saved face
ids with the name list is equivalent to the indexed loop with its bound
check. -/
def manualAssignPass (s : Store) (uid : Nat) (faceIds : List Nat)
    (names : List String) : Store :=
  (faceIds.zip names).foldl (manualStep uid) s

/-- `photo_service.create_photo`, restricted to the columns of the model the
core reads: the Photo row is appended with the content hash computed at
creation time and the upload timestamp. -/
def create_photo (s : Store) (uid : Nat) (hash : Option String) (time : Nat) :
    Store :=
  { s with
      photos := s.photos ++ [{ id := s.nextPhotoId, user_id := uid,
                               file_hash := hash, uploaded_at := time,
                               is_favorite := false }],
      nextPhotoId := s.nextPhotoId + 1 }

/-- `routes/photos.py upload_photo` after file storage: create the Photo row,
save the detected faces (ids `s.nextFaceId + i` in detection order),
extract/store embeddings with auto-matching for the whole photo, then apply
manual name overrides last. -/
def upload_photo_op (simf : EmbVec → EmbVec → ℚ)
    (extract : ℚ × ℚ × ℚ × ℚ → Option EmbVec) (s : Store) (uid : Nat)
    (hash : Option String) (time : Nat) (detected : List DetFace)
    (names : List String) : Store :=
  if detected = [] then create_photo s uid hash time
  else
    manualAssignPass
      (process_embeddings_for_photo simf extract
        (save_detected_faces (create_photo s uid hash time) s.nextPhotoId detected)
        s.nextPhotoId uid)
      uid
      ((List.range detected.length).map (fun i => s.nextFaceId + i))
      names

-- ──────────────────────────────────────────────────
-- Helper lemmas and concrete stores
-- ──────────────────────────────────────────────────

/-- A store with one photo of user 1 whose single face is the sole reference
to person 1; used as concrete input by counterexamples and witnesses. -/
def exOrphStore : Store :=
  { photos := [⟨1, 1, none, 0, false⟩],
    faces := [⟨1, 1, some 1, 0, 0, 0, 0, none, none, none⟩],
    persons := [⟨1, 1, "Old"⟩],
    nextPhotoId := 2, nextFaceId := 2, nextPersonId := 2 }

/-- A store whose only face (id 1) sits on a photo owned by user 2; used to
exercise `assign_face_to_person` acting as user 1. -/
def exScopeStore : Store :=
  { photos := [⟨1, 2, none, 0, false⟩],
    faces := [⟨1, 1, none, 0, 0, 0, 0, none, none, none⟩],
    persons := [],
    nextPhotoId := 2, nextFaceId := 2, nextPersonId := 1 }

/-- A two-photo store of user 1: person 5's only face is on photo 1, while
person 6 has faces on both photo 1 and photo 2. -/
def exDelStore : Store :=
  { photos := [⟨1, 1, none, 0, false⟩, ⟨2, 1, none, 1, false⟩],
    faces := [⟨1, 1, some 5, 0, 0, 0, 0, none, none, none⟩,
              ⟨2, 2, some 6, 0, 0, 0, 0, none, none, none⟩,
              ⟨3, 1, some 6, 0, 0, 0, 0, none, none, none⟩],
    persons := [⟨5, 1, "only"⟩, ⟨6, 1, "shared"⟩],
    nextPhotoId := 3, nextFaceId := 4, nextPersonId := 7 }

/-- A store of user 1 holding six photos with content hashes A, A, B, C, C, C
in upload order; photo ids 1..6 with ascending timestamps. -/
def exDupStore : Store :=
  { photos := [⟨1, 1, some "A", 10, false⟩, ⟨2, 1, some "A", 20, false⟩,
               ⟨3, 1, some "B", 30, false⟩, ⟨4, 1, some "C", 40, false⟩,
               ⟨5, 1, some "C", 50, false⟩, ⟨6, 1, some "C", 60, false⟩],
    faces := [], persons := [],
    nextPhotoId := 7, nextFaceId := 1, nextPersonId := 1 }

/-- A store of user 1 with two candidate faces tied at the same similarity:
face 1 links person 5, face 2 links person 7, both with embedding `[1]`. -/
def exTieStore : Store :=
  { photos := [⟨1, 1, none, 0, false⟩],
    faces := [⟨1, 1, some 5, 0, 0, 0, 0, none, some [1], some "facenet"⟩,
              ⟨2, 1, some 7, 0, 0, 0, 0, none, some [1], some "facenet"⟩],
    persons := [⟨5, 1, "a"⟩, ⟨7, 1, "b"⟩],
    nextPhotoId := 2, nextFaceId := 3, nextPersonId := 8 }

/-- A concrete similarity function for witnesses, free of rational
arithmetic: 1 when the two vectors are equal, otherwise 0. -/
def simOne : EmbVec → EmbVec → ℚ := fun a b => if a = b then 1 else 0

/-- A store of user 1 with one photo whose single face (embedding `[1]`) is
linked to person 5 named "auto": a new upload's face will auto-match to
person 5 before the manual pass runs. -/
def exUploadStore : Store :=
  { photos := [⟨1, 1, none, 0, false⟩],
    faces := [⟨1, 1, some 5, 0, 0, 0, 0, none, some [1], some "facenet"⟩],
    persons := [⟨5, 1, "auto"⟩],
    nextPhotoId := 2, nextFaceId := 2, nextPersonId := 6 }

theorem matchThreshold_eq : matchThreshold = 3 / 5 := by
  unfold matchThreshold
  rw [Rat.mk'_eq_divInt, Rat.divInt_eq_div]
  norm_num

theorem faceCount_pos_iff (s : Store) (pid : Nat) :
    0 < faceCount s pid ↔ ∃ f ∈ s.faces, f.person_id = some pid := by
  simp [faceCount, List.length_pos_iff_exists_mem, List.mem_filter]

theorem faceCount_congr {s₁ s₂ : Store} (h : s₁.faces = s₂.faces) (pid : Nat) :
    faceCount s₁ pid = faceCount s₂ pid := by
  simp [faceCount, h]

theorem delete_photo_eq_none {s : Store} {photoId uid : Nat}
    (h : s.photos.find? (fun p => decide (p.id = photoId ∧ p.user_id = uid)) = none) :
    delete_photo s photoId uid = (s, false) := by
  unfold delete_photo
  rw [h]

theorem delete_photo_eq_some {s : Store} {photoId uid : Nat} {q : Photo}
    (h : s.photos.find? (fun p => decide (p.id = photoId ∧ p.user_id = uid)) = some q) :
    delete_photo s photoId uid =
      ({ s with
          photos := s.photos.eraseP
            (fun (p : Photo) => decide (p.id = photoId ∧ p.user_id = uid)),
          faces := s.faces.filter (fun (f : Face) => decide (f.photo_id ≠ photoId)),
          persons := s.persons.filter (fun (p : Person) => decide (¬(p.id ∈
              (s.faces.filter (fun (f : Face) =>
                decide (f.photo_id = photoId))).filterMap Face.person_id ∧
            faceCount { s with
                photos := s.photos.eraseP
                  (fun (p : Photo) => decide (p.id = photoId ∧ p.user_id = uid)),
                faces := s.faces.filter
                  (fun (f : Face) => decide (f.photo_id ≠ photoId)) }
              p.id = 0))) }, true) := by
  unfold delete_photo
  rw [h]

theorem delete_photos_batch_eq_nil {s : Store} {photoIds : List Nat} {uid : Nat}
    (h : s.photos.filter (fun p => decide (p.id ∈ photoIds ∧ p.user_id = uid)) = []) :
    delete_photos_batch s photoIds uid = (s, 0) := by
  unfold delete_photos_batch
  rw [h]
  rfl

theorem delete_photos_batch_eq_cons {s : Store} {photoIds : List Nat} {uid : Nat}
    (h : s.photos.filter (fun p => decide (p.id ∈ photoIds ∧ p.user_id = uid)) ≠ []) :
    delete_photos_batch s photoIds uid =
      ({ s with
          photos := s.photos.filter (fun (p : Photo) =>
            decide (¬(p.id ∈ photoIds ∧ p.user_id = uid))),
          faces := s.faces.filter (fun (f : Face) => decide (f.photo_id ∉
            (s.photos.filter (fun (p : Photo) =>
              decide (p.id ∈ photoIds ∧ p.user_id = uid))).map Photo.id)),
          persons := s.persons.filter (fun (p : Person) => decide (¬(p.id ∈
              (s.faces.filter (fun (f : Face) => decide (f.photo_id ∈
                (s.photos.filter (fun (p : Photo) =>
                  decide (p.id ∈ photoIds ∧ p.user_id = uid))).map Photo.id))).filterMap
                  Face.person_id ∧
            faceCount { s with
                photos := s.photos.filter (fun (p : Photo) =>
                  decide (¬(p.id ∈ photoIds ∧ p.user_id = uid))),
                faces := s.faces.filter (fun (f : Face) => decide (f.photo_id ∉
                  (s.photos.filter (fun (p : Photo) =>
                    decide (p.id ∈ photoIds ∧ p.user_id = uid))).map Photo.id)) }
              p.id = 0))) },
        (s.photos.filter (fun (p : Photo) =>
          decide (p.id ∈ photoIds ∧ p.user_id = uid))).length) := by
  unfold delete_photos_batch
  rw [if_neg h]

theorem delete_person_eq_none {s : Store} {personId uid : Nat}
    (h : s.persons.find? (fun p => decide (p.id = personId ∧ p.user_id = uid)) = none) :
    delete_person s personId uid = (s, false) := by
  unfold delete_person
  rw [h]

theorem delete_person_eq_some {s : Store} {personId uid : Nat} {q : Person}
    (h : s.persons.find? (fun p => decide (p.id = personId ∧ p.user_id = uid)) = some q) :
    delete_person s personId uid =
      ({ s with
          faces := s.faces.map (fun f =>
            if f.person_id = some personId then { f with person_id := none } else f),
          persons := s.persons.eraseP
            (fun p => decide (p.id = personId ∧ p.user_id = uid)) }, true) := by
  unfold delete_person
  rw [h]

theorem assign_eq_none {s : Store} {faceId : Nat} {nm : String} {uid : Nat}
    (h : s.faces.find? (fun f => decide (f.id = faceId)) = none) :
    assign_face_to_person s faceId nm uid = (s, none) := by
  unfold assign_face_to_person
  rw [h]

theorem assign_eq_found {s : Store} {faceId : Nat} {nm : String} {uid : Nat}
    {face : Face} {p : Person}
    (h : s.faces.find? (fun f => decide (f.id = faceId)) = some face)
    (hp : s.persons.find? (fun q => decide (q.name = nm ∧ q.user_id = uid)) = some p) :
    assign_face_to_person s faceId nm uid =
      ({ s with
          faces := s.faces.map (fun f =>
            if f.id = faceId then { f with person_id := some p.id } else f) },
        some { face with person_id := some p.id }) := by
  unfold assign_face_to_person
  rw [h, hp]

theorem assign_eq_created {s : Store} {faceId : Nat} {nm : String} {uid : Nat}
    {face : Face}
    (h : s.faces.find? (fun f => decide (f.id = faceId)) = some face)
    (hp : s.persons.find? (fun q => decide (q.name = nm ∧ q.user_id = uid)) = none) :
    assign_face_to_person s faceId nm uid =
      ({ s with
          faces := s.faces.map (fun (f : Face) =>
            if f.id = faceId then { f with person_id := some s.nextPersonId } else f),
          persons := s.persons ++ [(⟨s.nextPersonId, uid, nm⟩ : Person)],
          nextPersonId := s.nextPersonId + 1 },
        some { face with person_id := some s.nextPersonId }) := by
  unfold assign_face_to_person
  rw [h, hp]

theorem delete_person_removes_id (s : Store) (personId uid : Nat)
    (hnodup : (s.persons.map Person.id).Nodup)
    (hsucc : (delete_person s personId uid).2 = true) :
    ∀ p ∈ (delete_person s personId uid).1.persons, p.id ≠ personId := by
  intro p hp
  cases hfind : s.persons.find? (fun q => decide (q.id = personId ∧ q.user_id = uid)) with
  | none => rw [delete_person_eq_none hfind] at hsucc; cases hsucc
  | some q =>
    rw [delete_person_eq_some hfind] at hp
    have hqmem : q ∈ s.persons := List.mem_of_find?_eq_some hfind
    have hqpred : q.id = personId ∧ q.user_id = uid := by
      have := List.find?_some hfind
      simpa using this
    have hqp : (fun (r : Person) => decide (r.id = personId ∧ r.user_id = uid)) q
        = true := by
      simp only [decide_eq_true_eq]
      exact hqpred
    obtain ⟨a, l₁, l₂, hnotl₁, hpa, heq, herase⟩ :=
      @List.exists_of_eraseP Person
        (fun r => decide (r.id = personId ∧ r.user_id = uid)) s.persons q hqmem hqp
    rw [herase] at hp
    have hanodup : (s.persons.map Person.id).Nodup := hnodup
    rw [heq] at hanodup
    have hmapeq : ((l₁ ++ a :: l₂).map Person.id) =
        l₁.map Person.id ++ a.id :: l₂.map Person.id := by
      simp
    rw [hmapeq] at hanodup
    have hnomem : a.id ∉ l₁.map Person.id ++ l₂.map Person.id :=
      (List.nodup_cons.1 (List.nodup_middle.1 hanodup)).1
    have hpid : a.id = personId := by
      have := hpa
      simp only [decide_eq_true_eq] at this
      exact this.1
    intro hcontra
    apply hnomem
    rcases List.mem_append.1 hp with h | h
    · exact List.mem_append.2 (Or.inl (List.mem_map.2 ⟨p, h, by rw [hcontra, hpid]⟩))
    · exact List.mem_append.2 (Or.inr (List.mem_map.2 ⟨p, h, by rw [hcontra, hpid]⟩))

-- ──────────────────────────────────────────────────
-- Claim C10
-- ──────────────────────────────────────────────────

/-- Claim C10: `get_persons` returns exactly the user's Persons that have at
least one referencing Face; a Person with zero referencing Faces, even if it
persists in the store, is never included in the listing result. -/
theorem get_persons_exactly_referenced (s : Store) (uid : Nat) (p : Person) :
    p ∈ get_persons s uid ↔
      p ∈ s.persons ∧ p.user_id = uid ∧ 0 < faceCount s p.id := by
  simp [get_persons, List.mem_filter, and_assoc]

-- ──────────────────────────────────────────────────
-- Claim C1 (corrected)
-- ──────────────────────────────────────────────────

/-- Claim C1 counterexample: the claimed invariant fails on the code.  After
`create_person` completes on `exOrphStore`, the created person "Bob" persists
with zero referencing Faces; and after `assign_face_to_person` moves person
1's only face to a new person "New", person 1 persists with zero referencing
Faces.  In both cases a Person with no Face survives the operation. -/
theorem orphan_person_persists_after_create_and_assign :
    (∃ p ∈ (create_person exOrphStore 1 "Bob").1.persons,
        faceCount (create_person exOrphStore 1 "Bob").1 p.id = 0) ∧
    (∃ p ∈ (assign_face_to_person exOrphStore 1 "New" 1).1.persons,
        faceCount (assign_face_to_person exOrphStore 1 "New" 1).1 p.id = 0) := by
  decide

/-- Claim C1 as amended: the orphan-cleanup invariant is enforced by the
deletion paths only.  After `delete_photo` or `delete_photos_batch`, every
Person still in the store that was referenced by a Face of a deleted photo has
at least one referencing Face; after a successful `delete_person` the person
no longer exists at all.  (Person creation and face assignment, by contrast,
can leave a Person with zero referencing Faces, as the counterexample
shows.) -/
theorem deletion_paths_enforce_orphan_cleanup (s : Store) (uid : Nat)
    (hwf : wf s) :
    (∀ photoId : Nat, ∀ p ∈ (delete_photo s photoId uid).1.persons,
       (∃ f ∈ s.faces, f.photo_id = photoId ∧ f.person_id = some p.id) →
       0 < faceCount (delete_photo s photoId uid).1 p.id) ∧
    (∀ ids : List Nat, ∀ p ∈ (delete_photos_batch s ids uid).1.persons,
       (∃ f ∈ s.faces, f.person_id = some p.id ∧
          ∃ ph ∈ s.photos, f.photo_id = ph.id ∧ ph.id ∈ ids ∧ ph.user_id = uid) →
       0 < faceCount (delete_photos_batch s ids uid).1 p.id) ∧
    (∀ personId : Nat, (delete_person s personId uid).2 = true →
       ∀ p ∈ (delete_person s personId uid).1.persons, p.id ≠ personId) := by
  obtain ⟨-, -, hnodup, -, -, -⟩ := hwf
  refine ⟨?_, ?_, ?_⟩
  · intro photoId p hp hf
    cases hfind : s.photos.find? (fun q => decide (q.id = photoId ∧ q.user_id = uid)) with
    | none =>
      rw [delete_photo_eq_none hfind] at hp ⊢
      obtain ⟨f, hfm, hfp, hfl⟩ := hf
      exact (faceCount_pos_iff s p.id).2 ⟨f, hfm, hfl⟩
    | some q =>
      rw [delete_photo_eq_some hfind] at hp ⊢
      simp only [List.mem_filter, decide_eq_true_eq] at hp
      obtain ⟨hp1, hp2⟩ := hp
      obtain ⟨f, hfm, hfp, hfl⟩ := hf
      have hmem : p.id ∈ (s.faces.filter
          (fun f => decide (f.photo_id = photoId))).filterMap Face.person_id := by
        refine List.mem_filterMap.2 ⟨f, ?_, hfl⟩
        exact List.mem_filter.2 ⟨hfm, by simp [hfp]⟩
      rcases Nat.eq_zero_or_pos (faceCount
          { s with
              photos := s.photos.eraseP (fun p => decide (p.id = photoId ∧ p.user_id = uid)),
              faces := s.faces.filter (fun f => decide (f.photo_id ≠ photoId)) } p.id) with hz | hpos
      · exact absurd ⟨hmem, hz⟩ hp2
      · exact lt_of_lt_of_eq hpos (faceCount_congr rfl p.id)
  · intro ids p hp hf
    by_cases hsel : s.photos.filter (fun q => decide (q.id ∈ ids ∧ q.user_id = uid)) = []
    · rw [delete_photos_batch_eq_nil hsel] at hp ⊢
      obtain ⟨f, hfm, hfl, ph, hphm, hfph, hidm, hphu⟩ := hf
      exact (faceCount_pos_iff s p.id).2 ⟨f, hfm, hfl⟩
    · rw [delete_photos_batch_eq_cons hsel] at hp ⊢
      simp only [List.mem_filter, decide_eq_true_eq] at hp
      obtain ⟨hp1, hp2⟩ := hp
      obtain ⟨f, hfm, hfl, ph, hphm, hfph, hidm, hphu⟩ := hf
      have hdel : f.photo_id ∈ (s.photos.filter
          (fun q => decide (q.id ∈ ids ∧ q.user_id = uid))).map Photo.id := by
        refine List.mem_map.2 ⟨ph, ?_, hfph.symm⟩
        exact List.mem_filter.2 ⟨hphm, by simp [hidm, hphu]⟩
      have hmem : p.id ∈ (s.faces.filter (fun f => decide (f.photo_id ∈
          (s.photos.filter (fun q => decide (q.id ∈ ids ∧ q.user_id = uid))).map
            Photo.id))).filterMap Face.person_id := by
        refine List.mem_filterMap.2 ⟨f, ?_, hfl⟩
        exact List.mem_filter.2 ⟨hfm, by simpa using hdel⟩
      rcases Nat.eq_zero_or_pos (faceCount
          { s with
              photos := s.photos.filter (fun p =>
                decide (¬(p.id ∈ ids ∧ p.user_id = uid))),
              faces := s.faces.filter (fun f => decide (f.photo_id ∉
                (s.photos.filter (fun q => decide (q.id ∈ ids ∧ q.user_id = uid))).map
                  Photo.id)) } p.id) with hz | hpos
      · exact absurd ⟨hmem, hz⟩ hp2
      · exact lt_of_lt_of_eq hpos (faceCount_congr rfl p.id)
  · intro personId hsucc
    exact delete_person_removes_id s personId uid hnodup hsucc

/-- Witness for the amended C1 at a concrete input: deleting photo 1 of
`exOrphStore` (whose sole face referenced person 1) leaves no zero-face person
among those affected, and explicit deletion of person 1 removes it. -/
theorem deletion_paths_enforce_orphan_cleanup_witness :
    wf exOrphStore ∧
    (∀ p ∈ (delete_photo exOrphStore 1 1).1.persons,
       (∃ f ∈ exOrphStore.faces, f.photo_id = 1 ∧ f.person_id = some p.id) →
       0 < faceCount (delete_photo exOrphStore 1 1).1 p.id) ∧
    ((delete_person exOrphStore 1 1).2 = true →
       ∀ p ∈ (delete_person exOrphStore 1 1).1.persons, p.id ≠ 1) := by
  have hwf : wf exOrphStore := by decide
  refine ⟨hwf, ?_, ?_⟩
  · exact (deletion_paths_enforce_orphan_cleanup exOrphStore 1 hwf).1 1
  · exact (deletion_paths_enforce_orphan_cleanup exOrphStore 1 hwf).2.2 1

-- ──────────────────────────────────────────────────
-- Claim C2 (corrected)
-- ──────────────────────────────────────────────────

/-- Claim C2 counterexample: face 1 belongs to a photo of user 2, yet
`assign_face_to_person` called by user 1 does NOT fail: it returns the face
(so the route answers 200, not 404) and links it to a person created in user
1's scope.  The claimed out-of-scope `NotFound` failure does not exist in the
code. -/
theorem assign_face_ignores_scope :
    (∀ f ∈ exScopeStore.faces, f.id = 1 →
        photoUser exScopeStore f.photo_id = some 2) ∧
    (assign_face_to_person exScopeStore 1 "Alice" 1).2.isSome = true := by
  decide

/-- Claim C2 as amended: `assign_face_to_person` fails with the no-result
value (routed as a 404) exactly when the target face id does not exist in the
store — the acting user's scope is not consulted — and in that failure case
the store is returned unchanged (no Face or Person state is modified). -/
theorem assign_face_notfound_iff_absent (s : Store) (faceId : Nat)
    (nm : String) (uid : Nat) :
    ((assign_face_to_person s faceId nm uid).2 = none ↔
       ∀ f ∈ s.faces, f.id ≠ faceId) ∧
    ((assign_face_to_person s faceId nm uid).2 = none →
       (assign_face_to_person s faceId nm uid).1 = s) := by
  cases hfind : s.faces.find? (fun f => decide (f.id = faceId)) with
  | none =>
    rw [assign_eq_none hfind]
    refine ⟨⟨fun _ f hf => ?_, fun _ => rfl⟩, fun _ => rfl⟩
    have := List.find?_eq_none.1 hfind f hf
    simpa using this
  | some f =>
    have hfm : f ∈ s.faces := List.mem_of_find?_eq_some hfind
    have hfid : f.id = faceId := by simpa using List.find?_some hfind
    cases hp : s.persons.find? (fun q => decide (q.name = nm ∧ q.user_id = uid)) with
    | some p =>
      rw [assign_eq_found hfind hp]
      refine ⟨⟨fun hnone => ?_, fun hall => absurd hfid (hall f hfm)⟩,
        fun hnone => ?_⟩ <;> simp at hnone
    | none =>
      rw [assign_eq_created hfind hp]
      refine ⟨⟨fun hnone => ?_, fun hall => absurd hfid (hall f hfm)⟩,
        fun hnone => ?_⟩ <;> simp at hnone

/-- Witness for the amended C2 at a concrete input: in `exScopeStore` there is
no face with id 5, and the assignment both reports no result and leaves the
store unchanged. -/
theorem assign_face_notfound_iff_absent_witness :
    (assign_face_to_person exScopeStore 5 "Alice" 1).2 = none ∧
    (assign_face_to_person exScopeStore 5 "Alice" 1).1 = exScopeStore := by
  have h := assign_face_notfound_iff_absent exScopeStore 5 "Alice" 1
  have hnone : (assign_face_to_person exScopeStore 5 "Alice" 1).2 = none :=
    h.1.2 (by decide)
  exact ⟨hnone, h.2 hnone⟩

-- ──────────────────────────────────────────────────
-- Claim C8
-- ──────────────────────────────────────────────────

/-- Claim C8: a successful `delete_person` sets the person link to null on
every Face that referenced the person and deletes the Person, leaving every
other field of those Faces (bounding box, confidence, embedding, embedding
model tag, photo ownership) unchanged, and leaving all other Faces, Photos
and Persons untouched. -/
theorem delete_person_unlinks_and_preserves (s : Store) (personId uid : Nat)
    (hwf : wf s) (hsucc : (delete_person s personId uid).2 = true) :
    (delete_person s personId uid).1.photos = s.photos ∧
    (delete_person s personId uid).1.faces.length = s.faces.length ∧
    (∀ f ∈ s.faces, ∃ f' ∈ (delete_person s personId uid).1.faces,
        f'.id = f.id ∧ f'.photo_id = f.photo_id ∧ f'.x = f.x ∧ f'.y = f.y ∧
        f'.width = f.width ∧ f'.height = f.height ∧
        f'.confidence = f.confidence ∧ f'.embedding = f.embedding ∧
        f'.embedding_model = f.embedding_model ∧
        f'.person_id = (if f.person_id = some personId then none else f.person_id)) ∧
    (∀ f' ∈ (delete_person s personId uid).1.faces, f'.person_id ≠ some personId) ∧
    (∀ p ∈ (delete_person s personId uid).1.persons, p ∈ s.persons ∧ p.id ≠ personId) ∧
    (∀ p ∈ s.persons, p.id ≠ personId ∨ p.user_id ≠ uid →
        p ∈ (delete_person s personId uid).1.persons) := by
  obtain ⟨-, -, hnodup, -, -, -⟩ := hwf
  have hremoved := delete_person_removes_id s personId uid hnodup hsucc
  cases hfind : s.persons.find? (fun q => decide (q.id = personId ∧ q.user_id = uid)) with
  | none => rw [delete_person_eq_none hfind] at hsucc; cases hsucc
  | some q =>
    rw [delete_person_eq_some hfind] at hremoved ⊢
    refine ⟨rfl, by simp, ?_, ?_, ?_, ?_⟩
    · intro f hf
      refine ⟨if f.person_id = some personId then { f with person_id := none } else f,
        List.mem_map.2 ⟨f, hf, rfl⟩, ?_⟩
      by_cases h : f.person_id = some personId <;> simp [h]
    · intro f' hf'
      obtain ⟨f, hf, rfl⟩ := List.mem_map.1 hf'
      by_cases h : f.person_id = some personId <;> simp [h]
    · intro p hp
      exact ⟨List.mem_of_mem_eraseP hp, hremoved p hp⟩
    · intro p hp hne
      refine (List.mem_eraseP_of_neg ?_).2 hp
      simp only [decide_eq_true_eq]
      intro hcon
      rcases hne with h | h
      · exact h hcon.1
      · exact h hcon.2

/-- Witness for C8 at a concrete input: deleting person 1 of `exOrphStore` as
user 1 unlinks its face and removes the person. -/
theorem delete_person_unlinks_and_preserves_witness :
    (delete_person exOrphStore 1 1).1.photos = exOrphStore.photos ∧
    (∀ f' ∈ (delete_person exOrphStore 1 1).1.faces, f'.person_id ≠ some 1) := by
  have h := delete_person_unlinks_and_preserves exOrphStore 1 1 (by decide) (by decide)
  exact ⟨h.1, h.2.2.2.1⟩

-- ──────────────────────────────────────────────────
-- Claim C7
-- ──────────────────────────────────────────────────

/-- Claim C7: after `delete_photo` (resp. `delete_photos_batch`), every Person
that was referenced by a face of a deleted photo and existed beforehand still
exists if and only if it still has at least one referencing Face: a person
whose only face was on a deleted photo is removed by the cleanup pass, while
a person with faces on surviving photos remains. -/
theorem delete_photo_orphan_cleanup_iff (s : Store) (uid : Nat) :
    (∀ photoId pid : Nat,
       (∃ f ∈ s.faces, f.photo_id = photoId ∧ f.person_id = some pid) →
       (∃ p ∈ s.persons, p.id = pid) →
       ((∃ p ∈ (delete_photo s photoId uid).1.persons, p.id = pid) ↔
        (∃ f ∈ (delete_photo s photoId uid).1.faces, f.person_id = some pid))) ∧
    (∀ ids : List Nat, ∀ pid : Nat,
       (∃ f ∈ s.faces, f.person_id = some pid ∧
          ∃ ph ∈ s.photos, f.photo_id = ph.id ∧ ph.id ∈ ids ∧ ph.user_id = uid) →
       (∃ p ∈ s.persons, p.id = pid) →
       ((∃ p ∈ (delete_photos_batch s ids uid).1.persons, p.id = pid) ↔
        (∃ f ∈ (delete_photos_batch s ids uid).1.faces, f.person_id = some pid))) := by
  constructor
  · intro photoId pid hface hperson
    cases hfind : s.photos.find? (fun q => decide (q.id = photoId ∧ q.user_id = uid)) with
    | none =>
      rw [delete_photo_eq_none hfind]
      obtain ⟨f, hfm, -, hfl⟩ := hface
      obtain ⟨p, hpm, hpid⟩ := hperson
      exact ⟨fun _ => ⟨f, hfm, hfl⟩, fun _ => ⟨p, hpm, hpid⟩⟩
    | some q =>
      rw [delete_photo_eq_some hfind]
      obtain ⟨f, hfm, hfp, hfl⟩ := hface
      have hpidmem : pid ∈ (s.faces.filter
          (fun f => decide (f.photo_id = photoId))).filterMap Face.person_id := by
        refine List.mem_filterMap.2 ⟨f, ?_, hfl⟩
        exact List.mem_filter.2 ⟨hfm, by simp [hfp]⟩
      constructor
      · intro ⟨p, hpmem, hpid⟩
        have := (List.mem_filter.1 hpmem).2
        simp only [decide_eq_true_eq] at this
        rw [hpid] at this
        have hcnt : faceCount { s with
            photos := s.photos.eraseP (fun p => decide (p.id = photoId ∧ p.user_id = uid)),
            faces := s.faces.filter (fun f => decide (f.photo_id ≠ photoId)) } pid ≠ 0 :=
          fun hz => this ⟨hpidmem, hz⟩
        have := (faceCount_pos_iff _ pid).1 (Nat.pos_of_ne_zero hcnt)
        exact this
      · intro ⟨f', hf'm, hf'l⟩
        obtain ⟨p, hpm, hpid⟩ := hperson
        refine ⟨p, List.mem_filter.2 ⟨hpm, ?_⟩, hpid⟩
        simp only [decide_eq_true_eq]
        intro hcon
        have hpos : 0 < faceCount { s with
            photos := s.photos.eraseP (fun p => decide (p.id = photoId ∧ p.user_id = uid)),
            faces := s.faces.filter (fun f => decide (f.photo_id ≠ photoId)) } p.id :=
          (faceCount_pos_iff _ p.id).2 ⟨f', hf'm, by rw [hf'l, hpid]⟩
        exact absurd hcon.2 (Nat.pos_iff_ne_zero.1 hpos)
  · intro ids pid hface hperson
    by_cases hsel : s.photos.filter (fun q => decide (q.id ∈ ids ∧ q.user_id = uid)) = []
    · rw [delete_photos_batch_eq_nil hsel]
      obtain ⟨f, hfm, hfl, -⟩ := hface
      obtain ⟨p, hpm, hpid⟩ := hperson
      exact ⟨fun _ => ⟨f, hfm, hfl⟩, fun _ => ⟨p, hpm, hpid⟩⟩
    · rw [delete_photos_batch_eq_cons hsel]
      obtain ⟨f, hfm, hfl, ph, hphm, hfph, hidm, hphu⟩ := hface
      have hpidmem : pid ∈ (s.faces.filter (fun f => decide (f.photo_id ∈
          (s.photos.filter (fun q => decide (q.id ∈ ids ∧ q.user_id = uid))).map
            Photo.id))).filterMap Face.person_id := by
        refine List.mem_filterMap.2 ⟨f, ?_, hfl⟩
        refine List.mem_filter.2 ⟨hfm, ?_⟩
        have hdel : f.photo_id ∈ (s.photos.filter
            (fun q => decide (q.id ∈ ids ∧ q.user_id = uid))).map Photo.id := by
          refine List.mem_map.2 ⟨ph, ?_, hfph.symm⟩
          exact List.mem_filter.2 ⟨hphm, by simp [hidm, hphu]⟩
        simpa using hdel
      constructor
      · intro ⟨p, hpmem, hpid⟩
        have := (List.mem_filter.1 hpmem).2
        simp only [decide_eq_true_eq] at this
        rw [hpid] at this
        have hcnt : faceCount { s with
            photos := s.photos.filter (fun p => decide (¬(p.id ∈ ids ∧ p.user_id = uid))),
            faces := s.faces.filter (fun f => decide (f.photo_id ∉
              (s.photos.filter (fun q => decide (q.id ∈ ids ∧ q.user_id = uid))).map
                Photo.id)) } pid ≠ 0 :=
          fun hz => this ⟨hpidmem, hz⟩
        exact (faceCount_pos_iff _ pid).1 (Nat.pos_of_ne_zero hcnt)
      · intro ⟨f', hf'm, hf'l⟩
        obtain ⟨p, hpm, hpid⟩ := hperson
        refine ⟨p, List.mem_filter.2 ⟨hpm, ?_⟩, hpid⟩
        simp only [decide_eq_true_eq]
        intro hcon
        have hpos : 0 < faceCount { s with
            photos := s.photos.filter (fun p => decide (¬(p.id ∈ ids ∧ p.user_id = uid))),
            faces := s.faces.filter (fun f => decide (f.photo_id ∉
              (s.photos.filter (fun q => decide (q.id ∈ ids ∧ q.user_id = uid))).map
                Photo.id)) } p.id :=
          (faceCount_pos_iff _ p.id).2 ⟨f', hf'm, by rw [hf'l, hpid]⟩
        exact absurd hcon.2 (Nat.pos_iff_ne_zero.1 hpos)

/-- Witness for C7 at a concrete input: after deleting photo 1 of
`exDelStore`, person 5 (sole face on photo 1) exists iff it still has a face
(it does not), and person 6 (another face on photo 2) exists iff it still has
a face (it does). -/
theorem delete_photo_orphan_cleanup_iff_witness :
    ((∃ p ∈ (delete_photo exDelStore 1 1).1.persons, p.id = 5) ↔
     (∃ f ∈ (delete_photo exDelStore 1 1).1.faces, f.person_id = some 5)) ∧
    ((∃ p ∈ (delete_photo exDelStore 1 1).1.persons, p.id = 6) ↔
     (∃ f ∈ (delete_photo exDelStore 1 1).1.faces, f.person_id = some 6)) :=
  ⟨(delete_photo_orphan_cleanup_iff exDelStore 1).1 1 5 (by decide) (by decide),
   (delete_photo_orphan_cleanup_iff exDelStore 1).1 1 6 (by decide) (by decide)⟩

-- ──────────────────────────────────────────────────
-- Claim C3
-- ──────────────────────────────────────────────────

theorem count_userHashes (l : List Photo) (uid : Nat) (h : String) :
    ((l.filter (fun p => decide (p.user_id = uid))).filterMap Photo.file_hash).count h
      = (l.filter (fun p => decide (p.user_id = uid ∧ p.file_hash = some h))).length := by
  induction l with
  | nil => rfl
  | cons p t ih =>
    by_cases hu : p.user_id = uid
    · cases hfh : p.file_hash with
      | none => simp [List.filter_cons, hu, hfh, List.filterMap_cons, ih]
      | some h' =>
        by_cases hh : h' = h
        · subst hh
          simp [List.filter_cons, hu, hfh, List.filterMap_cons, List.count_cons, ih]
        · simp [List.filter_cons, hu, hfh, List.filterMap_cons, List.count_cons, ih,
            Ne.symm hh, hh]
    · simp [List.filter_cons, hu, ih]

theorem mem_get_all_duplicates (s : Store) (uid : Nat) (h : String)
    (g : List Photo) :
    (h, g) ∈ get_all_duplicates s uid ↔
      2 ≤ (hashGroup s uid h).length ∧ g = hashGroup s uid h := by
  unfold get_all_duplicates
  simp only [List.mem_map, List.mem_filter, List.mem_dedup, Prod.mk.injEq]
  constructor
  · rintro ⟨h', ⟨hmem, hcnt⟩, rfl, rfl⟩
    simp only [decide_eq_true_eq] at hcnt
    rw [count_userHashes] at hcnt
    exact ⟨hcnt, rfl⟩
  · rintro ⟨hlen, rfl⟩
    refine ⟨h, ⟨?_, ?_⟩, rfl, rfl⟩
    · rw [← List.count_pos_iff, count_userHashes]
      have hlen' : 2 ≤ (s.photos.filter
          (fun p => decide (p.user_id = uid ∧ p.file_hash = some h))).length := hlen
      omega
    · simp only [decide_eq_true_eq]
      rw [count_userHashes]
      exact hlen

/-- Claim C3: `get_all_duplicates` returns exactly the groups of the user's
photos sharing the same non-null content hash with at least 2 members each;
assuming the photo table is ordered by upload timestamp (which the upload
path maintains, since rows are appended at creation time with the current
time), every returned group is ordered by upload timestamp ascending. -/
theorem get_all_duplicates_groups (s : Store) (uid : Nat)
    (hs : List.Pairwise (fun a b => a.uploaded_at ≤ b.uploaded_at) s.photos) :
    (∀ h g, (h, g) ∈ get_all_duplicates s uid →
       g = hashGroup s uid h ∧ 2 ≤ g.length ∧
       List.Pairwise (fun a b => a.uploaded_at ≤ b.uploaded_at) g) ∧
    (∀ h : String, 2 ≤ (hashGroup s uid h).length →
       (h, hashGroup s uid h) ∈ get_all_duplicates s uid) := by
  constructor
  · intro h g hmem
    obtain ⟨hlen, rfl⟩ := (mem_get_all_duplicates s uid h g).1 hmem
    exact ⟨rfl, hlen, List.Pairwise.sublist (List.filter_sublist _) hs⟩
  · intro h hlen
    exact (mem_get_all_duplicates s uid h _).2 ⟨hlen, rfl⟩

/-- Witness for C3 at a concrete input: in `exDupStore` the hash "A" group is
returned and is ordered by ascending upload timestamp. -/
theorem get_all_duplicates_groups_witness :
    ("A", hashGroup exDupStore 1 "A") ∈ get_all_duplicates exDupStore 1 ∧
    List.Pairwise (fun a b => a.uploaded_at ≤ b.uploaded_at)
      (hashGroup exDupStore 1 "A") := by
  have h := get_all_duplicates_groups exDupStore 1 (by decide)
  have hmem := h.2 "A" (by decide)
  exact ⟨hmem, (h.1 "A" _ hmem).2.2⟩

-- ──────────────────────────────────────────────────
-- Claim C9
-- ──────────────────────────────────────────────────

theorem timeLe_trans : ∀ (a b c : Photo),
    decide (a.uploaded_at ≤ b.uploaded_at) = true →
    decide (b.uploaded_at ≤ c.uploaded_at) = true →
    decide (a.uploaded_at ≤ c.uploaded_at) = true := by
  intro a b c hab hbc
  simp only [decide_eq_true_eq] at *
  omega

theorem timeLe_total : ∀ (a b : Photo),
    (decide (a.uploaded_at ≤ b.uploaded_at) ||
     decide (b.uploaded_at ≤ a.uploaded_at)) = true := by
  intro a b
  simp [Nat.le_total]

/-- Claim C9: `_action_delete_duplicates` stages for deletion exactly the
non-oldest members of every duplicate group: the staged list contains, per
group, all members except one kept member whose upload timestamp is minimal
in the group (so a scope with hash multiset A,A,B,C,C,C stages exactly
1 + 2 = 3 photo ids).  The action only stages ids; being a pure function of
the store, it deletes nothing. -/
theorem stage_duplicates_keeps_oldest (s : Store) (uid : Nat) :
    (action_delete_duplicates s uid).length =
      ((get_all_duplicates s uid).map (fun hg => hg.2.length - 1)).sum ∧
    ∀ hg ∈ get_all_duplicates s uid, ∃ kept : Photo,
      kept ∈ hg.2 ∧ (∀ p ∈ hg.2, kept.uploaded_at ≤ p.uploaded_at) ∧
      (hg.2.map Photo.id).Perm (kept.id :: stagedOfGroup hg.2) := by
  constructor
  · unfold action_delete_duplicates
    rw [List.flatMap_def, List.length_flatten, List.map_map]
    congr 1
    apply List.map_congr_left
    intro hg hmem
    simp [stagedOfGroup]
  · rintro ⟨h, g⟩ hmem
    obtain ⟨hlen, hgr⟩ := (mem_get_all_duplicates s uid h g).1 hmem
    have hlen2 : 2 ≤ (g.mergeSort
        (fun a b => decide (a.uploaded_at ≤ b.uploaded_at))).length := by
      rw [List.length_mergeSort]
      rw [hgr]
      exact hlen
    cases hsort : g.mergeSort (fun a b => decide (a.uploaded_at ≤ b.uploaded_at)) with
    | nil => rw [hsort] at hlen2; simp at hlen2
    | cons kept rest =>
      have hperm : (kept :: rest).Perm g := by
        rw [← hsort]
        exact List.mergeSort_perm g _
      have hpw : (kept :: rest).Pairwise
          (fun a b => decide (a.uploaded_at ≤ b.uploaded_at) = true) := by
        rw [← hsort]
        exact List.sorted_mergeSort timeLe_trans timeLe_total g
      refine ⟨kept, hperm.subset (List.mem_cons_self kept rest), ?_, ?_⟩
      · intro p hp
        have hp' : p ∈ kept :: rest := hperm.symm.subset hp
        rcases List.mem_cons.1 hp' with rfl | hp''
        · exact le_refl _
        · have := (List.pairwise_cons.1 hpw).1 p hp''
          simpa using this
      · have hstage : stagedOfGroup g = rest.map Photo.id := by
          unfold stagedOfGroup
          rw [hsort]
          rfl
        rw [hstage]
        exact (hperm.map Photo.id).symm

/-- Witness for C9 at a concrete input: on `exDupStore` (hashes A,A,B,C,C,C)
exactly 3 photo ids are staged, and in the "C" group the kept member has the
minimal upload timestamp while all other members are staged. -/
theorem stage_duplicates_keeps_oldest_witness :
    (action_delete_duplicates exDupStore 1).length = 3 ∧
    (∃ kept : Photo, kept ∈ ("C", hashGroup exDupStore 1 "C").2 ∧
      (∀ p ∈ ("C", hashGroup exDupStore 1 "C").2,
         kept.uploaded_at ≤ p.uploaded_at) ∧
      ((("C", hashGroup exDupStore 1 "C").2.map Photo.id).Perm
        (kept.id :: stagedOfGroup ("C", hashGroup exDupStore 1 "C").2))) := by
  constructor
  · have h1 := (stage_duplicates_keeps_oldest exDupStore 1).1
    have h2 : ((get_all_duplicates exDupStore 1).map
        (fun hg => hg.2.length - 1)).sum = 3 := by decide
    exact h1.trans h2
  · exact (stage_duplicates_keeps_oldest exDupStore 1).2
      ("C", hashGroup exDupStore 1 "C") (by decide)

-- ──────────────────────────────────────────────────
-- Claims C4 and C5: the matcher scan
-- ──────────────────────────────────────────────────

theorem fmLoop_cons_nolink {simf : EmbVec → EmbVec → ℚ} {q : EmbVec} {t : ℚ}
    {f : Face} {rest : List Face} {best : ℚ} {bp : Option Nat}
    (h : f.person_id = none) :
    fmLoop simf q t (f :: rest) best bp = fmLoop simf q t rest best bp := by
  simp only [fmLoop, h]

theorem fmLoop_cons_noemb {simf : EmbVec → EmbVec → ℚ} {q : EmbVec} {t : ℚ}
    {f : Face} {rest : List Face} {best : ℚ} {bp : Option Nat} {pid : Nat}
    (h : f.person_id = some pid) (he : f.embedding = none) :
    fmLoop simf q t (f :: rest) best bp = fmLoop simf q t rest best bp := by
  simp only [fmLoop, h, he]

theorem fmLoop_cons_update {simf : EmbVec → EmbVec → ℚ} {q : EmbVec} {t : ℚ}
    {f : Face} {rest : List Face} {best : ℚ} {bp : Option Nat} {pid : Nat}
    {e : EmbVec} (h : f.person_id = some pid) (he : f.embedding = some e)
    (hc : t ≤ simf q e ∧ best < simf q e) :
    fmLoop simf q t (f :: rest) best bp =
      fmLoop simf q t rest (simf q e) (some pid) := by
  simp only [fmLoop, h, he]
  rw [if_pos hc]

theorem fmLoop_cons_skip {simf : EmbVec → EmbVec → ℚ} {q : EmbVec} {t : ℚ}
    {f : Face} {rest : List Face} {best : ℚ} {bp : Option Nat} {pid : Nat}
    {e : EmbVec} (h : f.person_id = some pid) (he : f.embedding = some e)
    (hc : ¬(t ≤ simf q e ∧ best < simf q e)) :
    fmLoop simf q t (f :: rest) best bp = fmLoop simf q t rest best bp := by
  simp only [fmLoop, h, he]
  rw [if_neg hc]

theorem pcandsOf_cons_skip {f : Face} {l : List Face}
    (h : (f.person_id.isSome && f.embedding.isSome) = false) :
    pcandsOf (f :: l) = pcandsOf l := by
  simp [pcandsOf, List.filter_cons, h]

theorem pcandsOf_cons_keep {f : Face} {l : List Face}
    (h : (f.person_id.isSome && f.embedding.isSome) = true) :
    pcandsOf (f :: l) = f :: pcandsOf l := by
  simp [pcandsOf, List.filter_cons, h]

theorem fmLoop_some {simf : EmbVec → EmbVec → ℚ} {q : EmbVec} {t : ℚ} :
    ∀ (l : List Face) (best : ℚ) (bp : Option Nat) (pid : Nat),
      (fmLoop simf q t l best bp).2 = some pid →
      bp = some pid ∨ ∃ f ∈ l, f.person_id = some pid ∧
        ∃ e, f.embedding = some e ∧ t ≤ simf q e := by
  intro l
  induction l with
  | nil =>
    intro best bp pid h
    exact Or.inl h
  | cons f rest ih =>
    intro best bp pid h
    cases hpid : f.person_id with
    | none =>
      rw [fmLoop_cons_nolink hpid] at h
      rcases ih best bp pid h with h' | ⟨g, hg, hrest⟩
      · exact Or.inl h'
      · exact Or.inr ⟨g, List.mem_cons_of_mem f hg, hrest⟩
    | some pid' =>
      cases hemb : f.embedding with
      | none =>
        rw [fmLoop_cons_noemb hpid hemb] at h
        rcases ih best bp pid h with h' | ⟨g, hg, hrest⟩
        · exact Or.inl h'
        · exact Or.inr ⟨g, List.mem_cons_of_mem f hg, hrest⟩
      | some e =>
        by_cases hc : t ≤ simf q e ∧ best < simf q e
        · rw [fmLoop_cons_update hpid hemb hc] at h
          rcases ih (simf q e) (some pid') pid h with h' | ⟨g, hg, hrest⟩
          · cases h'
            exact Or.inr ⟨f, List.mem_cons_self f rest, hpid, e, hemb, hc.1⟩
          · exact Or.inr ⟨g, List.mem_cons_of_mem f hg, hrest⟩
        · rw [fmLoop_cons_skip hpid hemb hc] at h
          rcases ih best bp pid h with h' | ⟨g, hg, hrest⟩
          · exact Or.inl h'
          · exact Or.inr ⟨g, List.mem_cons_of_mem f hg, hrest⟩

/-- Claim C4: `find_matching_person` returns a person only if some candidate
face (a stored, person-linked embedding of the user) has similarity at least
the threshold — in particular the maximum candidate similarity reaches the
threshold; contrapositively, if every candidate similarity is below the
threshold the result is none.  Proved for every similarity function `simf`,
hence for cosine similarity. -/
theorem find_match_requires_threshold (simf : EmbVec → EmbVec → ℚ) (s : Store)
    (q : EmbVec) (uid : Nat) (t : ℚ) (pid : Nat)
    (h : find_matching_person simf s q uid t = some pid) :
    ∃ f ∈ userEmbeddingFaces s uid, f.person_id = some pid ∧
      ∃ e, f.embedding = some e ∧ t ≤ simf q e := by
  unfold find_matching_person at h
  rcases fmLoop_some (userEmbeddingFaces s uid) (-1) none pid h with h' | h'
  · cases h'
  · exact h'

/-- Witness for C4 at a concrete input: the matcher returns person 5 on
`exTieStore`, and indeed a candidate face linked to person 5 reaches the
0.6 threshold. -/
theorem find_match_requires_threshold_witness :
    ∃ f ∈ userEmbeddingFaces exTieStore 1, f.person_id = some 5 ∧
      ∃ e, f.embedding = some e ∧ matchThreshold ≤ simOne [1] e :=
  find_match_requires_threshold simOne exTieStore [1] 1 matchThreshold 5 (by decide)

theorem fmLoop_no_update {simf : EmbVec → EmbVec → ℚ} {q : EmbVec} {t : ℚ} :
    ∀ (l : List Face) (best : ℚ) (bp : Option Nat),
      (∀ f ∈ pcandsOf l, ¬(t ≤ simQ simf q f ∧ best < simQ simf q f)) →
      fmLoop simf q t l best bp = (best, bp) := by
  intro l
  induction l with
  | nil =>
    intro best bp _
    rfl
  | cons f rest ih =>
    intro best bp hno
    cases hpid : f.person_id with
    | none =>
      rw [fmLoop_cons_nolink hpid]
      refine ih best bp ?_
      intro g hg
      exact hno g (by rw [pcandsOf_cons_skip (by simp [hpid])]; exact hg)
    | some pid' =>
      cases hemb : f.embedding with
      | none =>
        rw [fmLoop_cons_noemb hpid hemb]
        refine ih best bp ?_
        intro g hg
        exact hno g (by rw [pcandsOf_cons_skip (by simp [hpid, hemb])]; exact hg)
      | some e =>
        have hkeep : pcandsOf (f :: rest) = f :: pcandsOf rest :=
          pcandsOf_cons_keep (by simp [hpid, hemb])
        have hsimf : simQ simf q f = simf q e := by
          simp [simQ, hemb]
        have hcf := hno f (by rw [hkeep]; exact List.mem_cons_self f (pcandsOf rest))
        rw [hsimf] at hcf
        rw [fmLoop_cons_skip hpid hemb hcf]
        refine ih best bp ?_
        intro g hg
        exact hno g (by rw [hkeep]; exact List.mem_cons_of_mem f hg)

theorem fmLoop_first_at_max {simf : EmbVec → EmbVec → ℚ} {q : EmbVec} {t : ℚ} :
    ∀ (l : List Face) (best : ℚ) (bp : Option Nat),
      (∃ f ∈ pcandsOf l, t ≤ simQ simf q f ∧ best < simQ simf q f) →
      ∃ M g, (∀ f ∈ pcandsOf l, simQ simf q f ≤ M) ∧ t ≤ M ∧ best < M ∧
        (pcandsOf l).find? (fun f => decide (simQ simf q f = M)) = some g ∧
        fmLoop simf q t l best bp = (M, g.person_id) := by
  intro l
  induction l with
  | nil =>
    intro best bp h
    obtain ⟨f, hf, -⟩ := h
    simp [pcandsOf] at hf
  | cons f rest ih =>
    intro best bp hex
    cases hpid : f.person_id with
    | none =>
      have hskip : pcandsOf (f :: rest) = pcandsOf rest :=
        pcandsOf_cons_skip (by simp [hpid])
      rw [hskip] at hex ⊢
      rw [fmLoop_cons_nolink hpid]
      exact ih best bp hex
    | some pid' =>
      cases hemb : f.embedding with
      | none =>
        have hskip : pcandsOf (f :: rest) = pcandsOf rest :=
          pcandsOf_cons_skip (by simp [hpid, hemb])
        rw [hskip] at hex ⊢
        rw [fmLoop_cons_noemb hpid hemb]
        exact ih best bp hex
      | some e =>
        have hkeep : pcandsOf (f :: rest) = f :: pcandsOf rest :=
          pcandsOf_cons_keep (by simp [hpid, hemb])
        have hsimf : simQ simf q f = simf q e := by
          simp [simQ, hemb]
        rw [hkeep] at hex ⊢
        by_cases hc : t ≤ simf q e ∧ best < simf q e
        · rw [fmLoop_cons_update hpid hemb hc]
          by_cases hrest : ∃ g ∈ pcandsOf rest,
              t ≤ simQ simf q g ∧ simf q e < simQ simf q g
          · obtain ⟨M, g, hub, htM, hbM, hfind, heq⟩ := ih (simf q e) (some pid') hrest
            refine ⟨M, g, ?_, htM, lt_trans hc.2 hbM, ?_, heq⟩
            · intro f' hf'
              rcases List.mem_cons.1 hf' with rfl | hf''
              · rw [hsimf]
                exact le_of_lt hbM
              · exact hub f' hf''
            · rw [List.find?_cons_of_neg]
              · exact hfind
              · simp only [decide_eq_true_eq, hsimf]
                exact ne_of_lt hbM
          · push_neg at hrest
            have hstop : fmLoop simf q t rest (simf q e) (some pid') =
                (simf q e, some pid') := by
              refine fmLoop_no_update rest (simf q e) (some pid') ?_
              intro g hg hcon
              exact absurd hcon.2 (not_lt.2 (by
                by_contra hlt
                push_neg at hlt
                exact absurd hcon.2 (not_lt.2 (hrest g hg (le_trans hc.1 (le_of_lt hlt))))))
            refine ⟨simf q e, f, ?_, hc.1, hc.2, ?_, ?_⟩
            · intro f' hf'
              rcases List.mem_cons.1 hf' with rfl | hf''
              · rw [hsimf]
              · by_contra hgt
                push_neg at hgt
                exact absurd hgt (not_lt.2 (hrest f' hf'' (le_trans hc.1 (le_of_lt hgt))))
            · rw [List.find?_cons_of_pos]
              simp [hsimf]
            · rw [hstop, hpid]
        · rw [fmLoop_cons_skip hpid hemb hc]
          have hex' : ∃ g ∈ pcandsOf rest, t ≤ simQ simf q g ∧ best < simQ simf q g := by
            obtain ⟨c, hcm, hct, hcb⟩ := hex
            rcases List.mem_cons.1 hcm with rfl | hcm'
            · rw [hsimf] at hct hcb
              exact absurd ⟨hct, hcb⟩ hc
            · exact ⟨c, hcm', hct, hcb⟩
          obtain ⟨M, g, hub, htM, hbM, hfind, heq⟩ := ih best bp hex'
          have hfM : simQ simf q f ≠ M := by
            rw [hsimf]
            intro hEq
            rw [hEq] at hc
            exact hc ⟨htM, hbM⟩
          refine ⟨M, g, ?_, htM, hbM, ?_, heq⟩
          · intro f' hf'
            rcases List.mem_cons.1 hf' with rfl | hf''
            · by_contra hgt
              push_neg at hgt
              rw [hsimf] at hgt hfM
              exact hc ⟨le_trans htM (le_of_lt hgt), lt_trans hbM hgt⟩
            · exact hub f' hf''
          · rw [List.find?_cons_of_neg]
            · exact hfind
            · simpa using hfM

/-- Claim C5: during the scan a candidate replaces the current best only when
its similarity is strictly greater, so when several candidates tie at the
maximum similarity (at or above the threshold), the person of the first such
face in enumeration order is returned: the result is the person link of the
first candidate whose similarity equals the maximum `M`. -/
theorem find_match_first_at_max_wins (simf : EmbVec → EmbVec → ℚ) (s : Store)
    (q : EmbVec) (uid : Nat) (t : ℚ) (ht : -1 < t)
    (h : ∃ f ∈ pcandsOf (userEmbeddingFaces s uid), t ≤ simQ simf q f) :
    ∃ M g,
      (∀ f ∈ pcandsOf (userEmbeddingFaces s uid), simQ simf q f ≤ M) ∧ t ≤ M ∧
      (pcandsOf (userEmbeddingFaces s uid)).find?
        (fun f => decide (simQ simf q f = M)) = some g ∧
      find_matching_person simf s q uid t = g.person_id := by
  obtain ⟨f, hf, hft⟩ := h
  obtain ⟨M, g, hub, htM, hbM, hfind, heq⟩ :=
    fmLoop_first_at_max (userEmbeddingFaces s uid) (-1) none
      ⟨f, hf, hft, lt_of_lt_of_le ht hft⟩
  refine ⟨M, g, hub, htM, hfind, ?_⟩
  unfold find_matching_person
  rw [heq]

/-- Witness for C5 at a concrete input: on `exTieStore` faces 1 and 2 tie at
maximum similarity 1, and the matcher returns the person of the first one
(person 5, not person 7). -/
theorem find_match_first_at_max_wins_witness :
    (∃ M g,
      (∀ f ∈ pcandsOf (userEmbeddingFaces exTieStore 1),
         simQ simOne [1] f ≤ M) ∧ matchThreshold ≤ M ∧
      (pcandsOf (userEmbeddingFaces exTieStore 1)).find?
        (fun f => decide (simQ simOne [1] f = M)) = some g ∧
      find_matching_person simOne exTieStore [1] 1 matchThreshold = g.person_id) ∧
    find_matching_person simOne exTieStore [1] 1 matchThreshold = some 5 := by
  constructor
  · refine find_match_first_at_max_wins simOne exTieStore [1] 1 matchThreshold
      (by decide) ?_
    refine ⟨⟨1, 1, some 5, 0, 0, 0, 0, none, some [1], some "facenet"⟩, ?_, ?_⟩
    · decide
    · decide
  · decide

-- ──────────────────────────────────────────────────
-- Claim C6: manual override in the upload pipeline
-- ──────────────────────────────────────────────────

theorem assign_faces_ids (st : Store) (fid : Nat) (nm : String) (uid : Nat) :
    (assign_face_to_person st fid nm uid).1.faces.map Face.id
      = st.faces.map Face.id := by
  cases hfind : st.faces.find? (fun f => decide (f.id = fid)) with
  | none =>
    rw [assign_eq_none hfind]
  | some face =>
    cases hp : st.persons.find? (fun q => decide (q.name = nm ∧ q.user_id = uid)) with
    | some p =>
      rw [assign_eq_found hfind hp]
      rw [List.map_map]
      apply List.map_congr_left
      intro f _
      by_cases h : f.id = fid <;> simp [h]
    | none =>
      rw [assign_eq_created hfind hp]
      rw [List.map_map]
      apply List.map_congr_left
      intro f _
      by_cases h : f.id = fid <;> simp [h]

theorem assign_persons_mono (st : Store) (fid : Nat) (nm : String) (uid : Nat)
    (p : Person) (hp : p ∈ st.persons) :
    p ∈ (assign_face_to_person st fid nm uid).1.persons := by
  cases hfind : st.faces.find? (fun f => decide (f.id = fid)) with
  | none =>
    rw [assign_eq_none hfind]
    exact hp
  | some face =>
    cases hq : st.persons.find? (fun q => decide (q.name = nm ∧ q.user_id = uid)) with
    | some q =>
      rw [assign_eq_found hfind hq]
      exact hp
    | none =>
      rw [assign_eq_created hfind hq]
      exact List.mem_append_left _ hp

theorem assign_spec (st : Store) (fid : Nat) (nm : String) (uid : Nat)
    (hmem : fid ∈ st.faces.map Face.id) :
    ∃ p ∈ (assign_face_to_person st fid nm uid).1.persons,
      p.name = nm ∧ p.user_id = uid ∧
      ∃ f ∈ (assign_face_to_person st fid nm uid).1.faces,
        f.id = fid ∧ f.person_id = some p.id := by
  obtain ⟨face, hfacem, hfaceid⟩ := List.mem_map.1 hmem
  have hsome : (st.faces.find? (fun f => decide (f.id = fid))).isSome := by
    rw [List.find?_isSome]
    exact ⟨face, hfacem, by simp [hfaceid]⟩
  cases hfind : st.faces.find? (fun f => decide (f.id = fid)) with
  | none => rw [hfind] at hsome; cases hsome
  | some face' =>
    have hface'm : face' ∈ st.faces := List.mem_of_find?_eq_some hfind
    have hface'id : face'.id = fid := by simpa using List.find?_some hfind
    cases hq : st.persons.find? (fun q => decide (q.name = nm ∧ q.user_id = uid)) with
    | some q =>
      have hqm : q ∈ st.persons := List.mem_of_find?_eq_some hq
      have hqpred : q.name = nm ∧ q.user_id = uid := by
        simpa using List.find?_some hq
      rw [assign_eq_found hfind hq]
      refine ⟨q, hqm, hqpred.1, hqpred.2,
        { face' with person_id := some q.id }, ?_, hface'id, rfl⟩
      refine List.mem_map.2 ⟨face', hface'm, ?_⟩
      rw [if_pos hface'id]
    | none =>
      rw [assign_eq_created hfind hq]
      refine ⟨⟨st.nextPersonId, uid, nm⟩,
        List.mem_append_right _ (List.mem_singleton.2 rfl), rfl, rfl,
        { face' with person_id := some st.nextPersonId }, ?_, hface'id, rfl⟩
      refine List.mem_map.2 ⟨face', hface'm, ?_⟩
      rw [if_pos hface'id]

theorem assign_preserves_other_face (st : Store) (fid : Nat) (nm : String)
    (uid : Nat) (f : Face) (hf : f ∈ st.faces) (hne : f.id ≠ fid) :
    f ∈ (assign_face_to_person st fid nm uid).1.faces := by
  cases hfind : st.faces.find? (fun g => decide (g.id = fid)) with
  | none =>
    rw [assign_eq_none hfind]
    exact hf
  | some face =>
    cases hq : st.persons.find? (fun q => decide (q.name = nm ∧ q.user_id = uid)) with
    | some q =>
      rw [assign_eq_found hfind hq]
      refine List.mem_map.2 ⟨f, hf, ?_⟩
      rw [if_neg hne]
    | none =>
      rw [assign_eq_created hfind hq]
      refine List.mem_map.2 ⟨f, hf, ?_⟩
      rw [if_neg hne]

theorem manualStep_faces_ids (uid : Nat) (st : Store) (fn : Nat × String) :
    (manualStep uid st fn).faces.map Face.id = st.faces.map Face.id := by
  unfold manualStep
  by_cases h : strip fn.2 = ""
  · rw [if_pos h]
  · rw [if_neg h]
    exact assign_faces_ids st fn.1 (strip fn.2) uid

theorem manualStep_persons_mono (uid : Nat) (st : Store) (fn : Nat × String)
    (p : Person) (hp : p ∈ st.persons) : p ∈ (manualStep uid st fn).persons := by
  unfold manualStep
  by_cases h : strip fn.2 = ""
  · rw [if_pos h]
    exact hp
  · rw [if_neg h]
    exact assign_persons_mono st fn.1 (strip fn.2) uid p hp

theorem manualStep_preserves_face (uid : Nat) (st : Store) (fn : Nat × String)
    (f : Face) (hf : f ∈ st.faces) (hne : f.id ≠ fn.1) :
    f ∈ (manualStep uid st fn).faces := by
  unfold manualStep
  by_cases h : strip fn.2 = ""
  · rw [if_pos h]
    exact hf
  · rw [if_neg h]
    exact assign_preserves_other_face st fn.1 (strip fn.2) uid f hf hne

theorem foldl_manualStep_persons_mono (uid : Nat) :
    ∀ (pairs : List (Nat × String)) (st : Store) (p : Person),
      p ∈ st.persons → p ∈ (pairs.foldl (manualStep uid) st).persons := by
  intro pairs
  induction pairs with
  | nil => intro st p hp; exact hp
  | cons fn rest ih =>
    intro st p hp
    rw [List.foldl_cons]
    exact ih (manualStep uid st fn) p (manualStep_persons_mono uid st fn p hp)

theorem foldl_manualStep_preserves_face (uid : Nat) :
    ∀ (pairs : List (Nat × String)) (st : Store) (f : Face),
      f ∈ st.faces → f.id ∉ pairs.map Prod.fst →
      f ∈ (pairs.foldl (manualStep uid) st).faces := by
  intro pairs
  induction pairs with
  | nil => intro st f hf _; exact hf
  | cons fn rest ih =>
    intro st f hf hnot
    rw [List.foldl_cons]
    have h1 : f.id ≠ fn.1 := by
      intro hc
      apply hnot
      rw [List.map_cons, hc]
      exact List.mem_cons_self fn.1 (rest.map Prod.fst)
    have h2 : f.id ∉ rest.map Prod.fst := by
      intro hc
      exact hnot (by rw [List.map_cons]; exact List.mem_cons_of_mem _ hc)
    exact ih (manualStep uid st fn) f (manualStep_preserves_face uid st fn f hf h1) h2

theorem foldl_manualStep_spec (uid : Nat) :
    ∀ (pairs : List (Nat × String)) (st : Store),
      (pairs.map Prod.fst).Nodup →
      (∀ fid ∈ pairs.map Prod.fst, fid ∈ st.faces.map Face.id) →
      ∀ pr ∈ pairs, strip pr.2 ≠ "" →
        ∃ f ∈ (pairs.foldl (manualStep uid) st).faces, f.id = pr.1 ∧
          ∃ p ∈ (pairs.foldl (manualStep uid) st).persons,
            f.person_id = some p.id ∧ p.name = strip pr.2 ∧ p.user_id = uid := by
  intro pairs
  induction pairs with
  | nil =>
    intro st _ _ pr hpr
    cases hpr
  | cons fn rest ih =>
    intro st hnodup hmem pr hpr hne
    rw [List.foldl_cons]
    rcases List.mem_cons.1 hpr with rfl | hpr'
    · have hstep : manualStep uid st pr =
          (assign_face_to_person st pr.1 (strip pr.2) uid).1 := by
        unfold manualStep
        rw [if_neg hne]
      have hprmem : pr.1 ∈ st.faces.map Face.id :=
        hmem pr.1 (by rw [List.map_cons]; exact List.mem_cons_self _ _)
      obtain ⟨p, hpmem, hpnm, hpuid, f, hfmem, hfid, hflink⟩ :=
        assign_spec st pr.1 (strip pr.2) uid hprmem
      rw [hstep]
      have hnotrest : f.id ∉ rest.map Prod.fst := by
        rw [hfid]
        have := (List.nodup_cons.1 (by rw [List.map_cons] at hnodup; exact hnodup)).1
        exact this
      refine ⟨f, ?_, hfid, p, ?_, hflink, hpnm, hpuid⟩
      · exact foldl_manualStep_preserves_face uid rest
          (assign_face_to_person st pr.1 (strip pr.2) uid).1 f hfmem hnotrest
      · exact foldl_manualStep_persons_mono uid rest
          (assign_face_to_person st pr.1 (strip pr.2) uid).1 p hpmem
    · have hnodup' : (rest.map Prod.fst).Nodup :=
        (List.nodup_cons.1 (by rw [List.map_cons] at hnodup; exact hnodup)).2
      refine ih (manualStep uid st fn) hnodup' ?_ pr hpr' hne
      intro fid hfid
      rw [manualStep_faces_ids]
      exact hmem fid (by rw [List.map_cons]; exact List.mem_cons_of_mem _ hfid)

theorem store_embedding_faces_ids (s' : Store) (g : Nat) (e : EmbVec)
    (mdl : String) :
    (store_embedding s' g e mdl).faces.map Face.id = s'.faces.map Face.id := by
  unfold store_embedding
  rw [List.map_map]
  apply List.map_congr_left
  intro f' _
  by_cases h : f'.id = g <;> simp [h]

theorem set_person_id_faces_ids (s' : Store) (g pid : Nat) :
    (set_person_id s' g pid).faces.map Face.id = s'.faces.map Face.id := by
  unfold set_person_id
  rw [List.map_map]
  apply List.map_congr_left
  intro f' _
  by_cases h : f'.id = g <;> simp [h]

theorem processOneFace_frame (simf : EmbVec → EmbVec → ℚ)
    (extract : ℚ × ℚ × ℚ × ℚ → Option EmbVec) (uid : Nat) (st : Store)
    (fid : Nat) :
    (processOneFace simf extract uid st fid).faces.map Face.id
        = st.faces.map Face.id ∧
    (processOneFace simf extract uid st fid).persons = st.persons := by
  cases hfind : st.faces.find? (fun f => decide (f.id = fid)) with
  | none =>
    simp only [processOneFace, hfind]
    exact ⟨trivial, trivial⟩
  | some f =>
    cases hext : extract (f.x, f.y, f.width, f.height) with
    | none =>
      simp only [processOneFace, hfind, hext]
      exact ⟨trivial, trivial⟩
    | some e =>
      by_cases hpid : f.person_id = none
      · cases hm : find_matching_person simf
            (store_embedding st fid e "facenet") e uid matchThreshold with
        | none =>
          simp only [processOneFace, hfind, hext, if_pos hpid, hm]
          exact ⟨store_embedding_faces_ids st fid e "facenet", rfl⟩
        | some pid =>
          simp only [processOneFace, hfind, hext, if_pos hpid, hm]
          constructor
          · rw [set_person_id_faces_ids, store_embedding_faces_ids]
          · rfl
      · simp only [processOneFace, hfind, hext, if_neg hpid]
        exact ⟨store_embedding_faces_ids st fid e "facenet", rfl⟩

theorem foldl_process_frame (simf : EmbVec → EmbVec → ℚ)
    (extract : ℚ × ℚ × ℚ × ℚ → Option EmbVec) (uid : Nat) :
    ∀ (l : List Nat) (st : Store),
      ((l.foldl (processOneFace simf extract uid) st).faces.map Face.id
          = st.faces.map Face.id) ∧
      (l.foldl (processOneFace simf extract uid) st).persons = st.persons := by
  intro l
  induction l with
  | nil => intro st; exact ⟨rfl, rfl⟩
  | cons fid rest ih =>
    intro st
    rw [List.foldl_cons]
    obtain ⟨h1, h2⟩ := ih (processOneFace simf extract uid st fid)
    obtain ⟨h3, h4⟩ := processOneFace_frame simf extract uid st fid
    exact ⟨h1.trans h3, h2.trans h4⟩

theorem process_embeddings_frame (simf : EmbVec → EmbVec → ℚ)
    (extract : ℚ × ℚ × ℚ × ℚ → Option EmbVec) (s : Store) (photoId uid : Nat) :
    ((process_embeddings_for_photo simf extract s photoId uid).faces.map Face.id
        = s.faces.map Face.id) ∧
    (process_embeddings_for_photo simf extract s photoId uid).persons
        = s.persons := by
  unfold process_embeddings_for_photo
  exact foldl_process_frame simf extract uid _ s

theorem save_detected_faces_ids (st : Store) (photoId : Nat)
    (detected : List DetFace) :
    (save_detected_faces st photoId detected).faces.map Face.id
      = st.faces.map Face.id
        ++ (List.range detected.length).map (fun i => st.nextFaceId + i) := by
  unfold save_detected_faces
  rw [List.map_append]
  congr 1
  rw [List.map_map]
  have hcomp : (Face.id ∘ fun ifd : Nat × DetFace =>
      ({ id := st.nextFaceId + ifd.1, photo_id := photoId, person_id := none,
         x := ifd.2.x, y := ifd.2.y, width := ifd.2.width, height := ifd.2.height,
         confidence := ifd.2.confidence, embedding := none,
         embedding_model := none } : Face))
      = (fun i => st.nextFaceId + i) ∘ Prod.fst := rfl
  rw [hcomp, ← List.map_map, List.enum_eq_enumFrom, List.enumFrom_map_fst,
    List.range_eq_range']

theorem map_fst_zip_eq_take (l : List Nat) (l' : List String) :
    (l.zip l').map Prod.fst = l.take l'.length := by
  induction l generalizing l' with
  | nil => simp
  | cons a t ih =>
    cases l' with
    | nil => simp
    | cons b t' => simp [List.zip_cons_cons, ih]

/-- Claim C6: when processing one uploaded photo, every face position for
which the caller supplied a non-empty (stripped) manual name ends with its
person link equal to a person carrying that stripped name in the acting
user's scope — the person found-or-created by `assign_face_to_person` —
regardless of any auto-match produced earlier in the run: the manual pass
runs after auto-matching for the whole photo (for every similarity function
and every extractor oracle) and unconditionally overwrites the link. -/
theorem manual_name_overrides_automatch (simf : EmbVec → EmbVec → ℚ)
    (extract : ℚ × ℚ × ℚ × ℚ → Option EmbVec) (s : Store) (uid : Nat)
    (hash : Option String) (time : Nat) (detected : List DetFace)
    (names : List String) (hwf : wf s) (i : Nat) (nm : String)
    (hi : i < detected.length) (hn : names[i]? = some nm)
    (hne : strip nm ≠ "") :
    ∃ f ∈ (upload_photo_op simf extract s uid hash time detected names).faces,
      f.id = s.nextFaceId + i ∧
      ∃ p ∈ (upload_photo_op simf extract s uid hash time detected names).persons,
        f.person_id = some p.id ∧ p.name = strip nm ∧ p.user_id = uid := by
  obtain ⟨-, hfnodup, -, -, hflt, -⟩ := hwf
  have hdet : detected ≠ [] := by
    intro hc
    rw [hc] at hi
    cases hi
  have hupl : upload_photo_op simf extract s uid hash time detected names =
      manualAssignPass
        (process_embeddings_for_photo simf extract
          (save_detected_faces (create_photo s uid hash time) s.nextPhotoId detected)
          s.nextPhotoId uid)
        uid
        ((List.range detected.length).map (fun j => s.nextFaceId + j))
        names := by
    unfold upload_photo_op
    rw [if_neg hdet]
  set faceIds := (List.range detected.length).map (fun j => s.nextFaceId + j) with hfids
  set s3 := process_embeddings_for_photo simf extract
    (save_detected_faces (create_photo s uid hash time) s.nextPhotoId detected)
    s.nextPhotoId uid with hs3
  have hs3ids : s3.faces.map Face.id = s.faces.map Face.id ++ faceIds := by
    rw [hs3]
    rw [(process_embeddings_frame simf extract _ s.nextPhotoId uid).1]
    rw [save_detected_faces_ids]
    rfl
  have hnewmem : s.nextFaceId + i ∈ faceIds := by
    rw [hfids]
    exact List.mem_map.2 ⟨i, List.mem_range.2 hi, rfl⟩
  have hfacemem : ∀ fid ∈ faceIds, fid ∈ s3.faces.map Face.id := by
    intro fid hfid
    rw [hs3ids]
    exact List.mem_append_right _ hfid
  have hfaceIdsnodup : faceIds.Nodup := by
    rw [hfids]
    exact (List.nodup_range detected.length).map (fun a b hab => by omega)
  have hpairnodup : ((faceIds.zip names).map Prod.fst).Nodup := by
    rw [map_fst_zip_eq_take]
    exact hfaceIdsnodup.sublist (List.take_sublist _ _)
  have hpairmem : ∀ fid ∈ (faceIds.zip names).map Prod.fst,
      fid ∈ s3.faces.map Face.id := by
    intro fid hfid
    rw [map_fst_zip_eq_take] at hfid
    exact hfacemem fid ((List.take_sublist _ _).subset hfid)
  have hprmem : (s.nextFaceId + i, nm) ∈ faceIds.zip names := by
    have hidx : (faceIds.zip names)[i]? = some (s.nextFaceId + i, nm) := by
      rw [List.getElem?_zip_eq_some]
      refine ⟨?_, hn⟩
      rw [hfids]
      rw [List.getElem?_map, List.getElem?_range hi]
      rfl
    exact List.getElem?_mem hidx
  have := foldl_manualStep_spec uid (faceIds.zip names) s3 hpairnodup hpairmem
    (s.nextFaceId + i, nm) hprmem hne
  rw [hupl]
  unfold manualAssignPass
  exact this

/-- Witness for C6 at a concrete input: uploading a photo with two detected
faces to `exUploadStore`, with embeddings equal to the stored one (so both
faces auto-match person 5 at similarity 1) and the manual name " Bob " for
position 0, the face at position 0 ends linked to a person named "Bob" in
user 1's scope. -/
theorem manual_name_overrides_automatch_witness :
    ∃ f ∈ (upload_photo_op simOne (fun _ => some [1]) exUploadStore 1
        (some "H") 50 [⟨0, 0, 0, 0, none⟩, ⟨0, 0, 0, 0, none⟩]
        [" Bob ", ""]).faces,
      f.id = exUploadStore.nextFaceId + 0 ∧
      ∃ p ∈ (upload_photo_op simOne (fun _ => some [1]) exUploadStore 1
          (some "H") 50 [⟨0, 0, 0, 0, none⟩, ⟨0, 0, 0, 0, none⟩]
          [" Bob ", ""]).persons,
        f.person_id = some p.id ∧ p.name = strip " Bob " ∧ p.user_id = 1 :=
  manual_name_overrides_automatch simOne (fun _ => some [1]) exUploadStore 1
    (some "H") 50 [⟨0, 0, 0, 0, none⟩, ⟨0, 0, 0, 0, none⟩] [" Bob ", ""]
    (by decide) 0 " Bob " (by decide) (by decide) (by decide)

end Drishyamitra
